import Mathlib

/-!
Verification development for the statistics query engine of
`backend/app/routers/statistics.py` (COCancerScope).

The Python source is shallowly embedded: SQL queries become filters over an
in-memory list of rows, Python dicts become association lists with Python's
insertion/overwrite semantics, raised exceptions become `Except` errors, and
the FastAPI `Query(regex=...)` validation of the `filters` argument becomes a
deterministic matcher for that regex.  Numeric column values are modelled as
`Int` (the claims under study concern which rows enter a computation, not
floating-point arithmetic).
-/

namespace CoCancer

/-! ### Python string primitives

`str.split(sep)`, `str.split(sep, maxsplit=2)` and `str.strip()` over
`List Char`, with Python's semantics (splitting the empty string yields one
empty part; adjacent separators yield empty parts; `maxsplit` bounds the
number of cuts, the remainder staying in the last part).
-/

/-- Python `s.split(sep)` for a one-character separator. -/
def pySplit (sep : Char) : List Char → List (List Char)
  | [] => [[]]
  | c :: cs =>
    if c = sep then [] :: pySplit sep cs
    else
      match pySplit sep cs with
      | s :: ss => (c :: s) :: ss
      | [] => [[c]]

/-- Python `s.split(sep, maxsplit=k)` for a one-character separator. -/
def pySplitMax (sep : Char) : Nat → List Char → List (List Char)
  | _, [] => [[]]
  | 0, c :: cs => [c :: cs]
  | k + 1, c :: cs =>
    if c = sep then [] :: pySplitMax sep k cs
    else
      match pySplitMax sep (k + 1) cs with
      | s :: ss => (c :: s) :: ss
      | [] => [[c]]

/-- Python `s.strip()`: drop whitespace from both ends. -/
def pyStrip (cs : List Char) : List Char :=
  ((cs.dropWhile Char.isWhitespace).reverse.dropWhile Char.isWhitespace).reverse

/-! ### Python dict primitives

Python dicts are embedded as association lists.  `dict(...)` built from a
sequence of pairs inserts left to right; inserting an existing key replaces
its value in place, so the resulting key list is duplicate-free and the last
pair for a key wins.
-/

/-- `d.get(k)` / `d[k]` lookup on an association list (first entry wins;
on lists built by `pyDictOf` keys are unique). -/
def pyGet {α : Type} (d : List (String × α)) (k : String) : Option α :=
  (d.find? (fun p => p.1 == k)).map (·.2)

/-- Python `d.get(k, dflt)`. -/
def pyGetD {α : Type} (d : List (String × α)) (k : String) (dflt : α) : α :=
  (pyGet d k).getD dflt

/-- Python `d[k] = v`: replace the value of an existing key in place,
otherwise append the new pair. -/
def pyDictInsert {α : Type} : List (String × α) → String → α → List (String × α)
  | [], k, v => [(k, v)]
  | p :: d, k, v => if p.1 == k then (k, v) :: d else p :: pyDictInsert d k v

/-- Python `dict(pairs)`: insert the pairs left to right. -/
def pyDictOf {α : Type} (l : List (String × α)) : List (String × α) :=
  l.foldl (fun d p => pyDictInsert d p.1 p.2) []

/-! ### The `filters` wire-format regex

`statistics.py` line 246 declares the query parameter
`filters : Annotated[str | None, Query(regex="^([^:]+:[^:;]+;)*([^:]+:[^:;]+)$")]`;
FastAPI rejects a supplied string that does not match, before the handler
body runs.  The pattern is anchored on both sides and deterministic: a name
part `[^:]+` runs to the first `:`, a value part `[^:;]+` runs to the first
`:`/`;`/end.  It is embedded as the equivalent four-state automaton below.
-/

/-- States of the filter-regex automaton: inside a (possibly empty so far)
name, inside a name with at least one character read, at the start of a
value, and inside a value with at least one character read. -/
inductive FState where
  | name0 : FState
  | name : FState
  | val0 : FState
  | val : FState
deriving DecidableEq

/-- One transition of the filter-regex automaton; `none` is rejection. -/
def fstep : FState → Char → Option FState
  | .name0, c => if c = ':' then none else some .name
  | .name, c => if c = ':' then some .val0 else some .name
  | .val0, c => if c = ':' then none else if c = ';' then none else some .val
  | .val, c => if c = ':' then none else if c = ';' then some .name0 else some .val

/-- Run the filter-regex automaton over a character list. -/
def frun (s : Option FState) (cs : List Char) : Option FState :=
  cs.foldl (fun acc c => acc.bind (fun st => fstep st c)) s

/-- Whether a character list matches `^([^:]+:[^:;]+;)*([^:]+:[^:;]+)$`. -/
def matchRegexChars (cs : List Char) : Bool :=
  match frun (some .name0) cs with
  | some .val => true
  | _ => false

/-- Whether a string matches the `filters` regex of `statistics.py` line 246. -/
def matchRegex (s : String) : Bool :=
  matchRegexChars s.data

/-! ### The filter parser (`parse_filter_str`, lines 149-163)

```
return dict(
    tuple(z.strip() for z in x.split(":", maxsplit=2))
    for x in filters.split(";")
)
```

`dict(...)` raises `ValueError` when an element is not a pair, i.e. when a
`;`-segment contains zero colons (one part) or at least two colons (three
parts after `maxsplit=2`).  Every failure of the filter machinery is
modelled by the single abstract error `MalformedFilterError`; the
no-factors rejection of lines 275-280 (`HTTPException 400`) is
`FactorsNotSupportedError`.
-/

/-- Errors of the fips-value pipeline. -/
inductive ApiError where
  | MalformedFilterError : ApiError
  | FactorsNotSupportedError : ApiError
deriving DecidableEq

instance {ε α : Type} [DecidableEq ε] [DecidableEq α] : DecidableEq (Except ε α) := fun a b =>
  match a, b with
  | .ok x, .ok y =>
    if h : x = y then .isTrue (by rw [h]) else .isFalse (by intro hc; cases hc; exact h rfl)
  | .error x, .error y =>
    if h : x = y then .isTrue (by rw [h]) else .isFalse (by intro hc; cases hc; exact h rfl)
  | .ok _, .error _ => .isFalse (by intro hc; cases hc)
  | .error _, .ok _ => .isFalse (by intro hc; cases hc)

/-- The per-segment work of `parse_filter_str`: split each `;`-segment on
`:` with `maxsplit=2`, strip the parts, and require a pair (`dict(...)`
raises `ValueError` otherwise). -/
def parseEntries : List (List Char) → Except ApiError (List (String × String))
  | [] => .ok []
  | seg :: rest =>
    match pySplitMax ':' 2 seg with
    | [n, v] => (parseEntries rest).map (fun t => (String.mk (pyStrip n), String.mk (pyStrip v)) :: t)
    | _ => .error .MalformedFilterError

/-- `parse_filter_str` (lines 149-163): split on `;`, split each segment on
`:` with `maxsplit=2`, strip, and build a Python dict from the pairs. -/
def parse_filter_str (s : String) : Except ApiError (List (String × String)) :=
  (parseEntries (pySplit ';' s.data)).map pyDictOf

/-- The full filter pipeline seen by `get_dataset_fips`: an absent string
yields the empty predicate (line 263); a supplied string is first validated
against the wire regex (line 246) and then parsed. -/
def parseFilters (filters : Option String) : Except ApiError (List (String × String)) :=
  match filters with
  | none => .ok []
  | some s => if matchRegex s then parse_filter_str s else .error .MalformedFilterError

/-- Modelled from the spec: the filter grammar `entry (";" entry)*` with
`entry := factorName ":" value`, where names and values contain neither `:`
nor `;` and are nonempty (the spec's factor names are nonempty and the
whitespace trimming happens after parsing).  Equivalently: every
`;`-segment splits on `:` into exactly one nonempty name and one nonempty
value. -/
def filterGrammarMatches (s : String) : Bool :=
  (pySplit ';' s.data).all (fun seg =>
    match pySplit ':' seg with
    | [n, v] => !n.isEmpty && !v.isEmpty
    | _ => false)

/-! ### Data model

A dataset corresponds to one generated route family: `isCancer` is
membership in `CANCER_MODELS`, `factorDescs` is
`FACTOR_DESCRIPTIONS.get(simple_model_name, None)` (an ordered dict, hence
an ordered association list, or `none` when the model has no entry), and
`measureLabels` is `MEASURE_DESCRIPTIONS.get(simple_model_name, {})`.

A `Row` carries every column the router can touch.  Factor columns
(`getattr(model, f)`, nullable) live in the `factors` association list.
-/

/-- One value of `FACTOR_DESCRIPTIONS[name]`: the factor's display label,
optional default (absent key modelled as `none`) and value-label dict. -/
structure FactorDesc where
  label : Option String := none
  default : Option String := none
  valueLabels : List (String × String) := []
deriving DecidableEq

/-- A dataset (one `model` of the `STATS_MODELS` loop). -/
structure Dataset where
  isCancer : Bool
  factorDescs : Option (List (String × FactorDesc))
  measureLabels : List (String × String)
deriving DecidableEq

/-- A table row.  Numeric values are modelled as `Int`; nullable factor
columns as `Option String`. -/
structure Row where
  FIPS : String
  State : String
  County : String
  measure : String
  Site : String
  value : Int
  AAR : Int
  AAC : Option Int
  factors : List (String × Option String)
deriving DecidableEq

/-- Python truthiness of `factor_labels` (line 265: `if factor_labels:`):
false for `None` and for an empty dict. -/
def factorsTruthy : Option (List (String × FactorDesc)) → Bool
  | none => false
  | some l => !l.isEmpty

/-- The declared factor names, in declaration order (empty when the model
has no `FACTOR_DESCRIPTIONS` entry). -/
def factorNames (ds : Dataset) : List String :=
  match ds.factorDescs with
  | none => []
  | some fds => fds.map (·.1)

/-- `getattr(model, f)` for a factor column of a row.  The spec's invariant
is that a declared factor is a real column; a key missing from the modelled
row is read as SQL `NULL`. -/
def lookupFactor (r : Row) (f : String) : Option String :=
  match pyGet r.factors f with
  | some v => v
  | none => none

/-- The `LIMIT_TO_STATE` predicate (`model.State == LIMIT_TO_STATE`),
applied only when the setting is not `None`. -/
def stateOk (lim : Option String) (r : Row) : Bool :=
  match lim with
  | some st => r.State == st
  | none => true

/-- The measure column of a row: `Site` for a cancer model, `measure`
otherwise (lines 252-255, 287-290). -/
def measureOf (ds : Dataset) (r : Row) : String :=
  if ds.isCancer then r.Site else r.measure

/-- The value column of a row: `AAR` for a cancer model, `value` otherwise. -/
def valueOf (ds : Dataset) (r : Row) : Int :=
  if ds.isCancer then r.AAR else r.value

/-! ### `get_dataset_fips` (lines 239-309) -/

/-- One entry of the fips-value response: `value` (AAR for cancer models)
and the optional `aac` secondary value. -/
structure FIPSValue where
  value : Int
  aac : Option Int
deriving DecidableEq

/-- The fips-value response: `min`/`max` of the range query and the
FIPS-keyed value dict. -/
structure FIPSMeasureResponse where
  min : Option Int
  max : Option Int
  values : List (String × FIPSValue)
deriving DecidableEq

/-- The value the factor filter compares against (line 272):
`filter_factors.get(f, fv.get("default", None))` — the supplied value when
present, else the declared default, else `None` (SQL `NULL`). -/
def factorTarget (d : List (String × String)) (f : String) (fv : FactorDesc) : Option String :=
  match pyGet d f with
  | some v => some v
  | none => fv.default

/-- The conjunction of the per-factor equality predicates of lines 266-274:
for every declared factor `f`, `getattr(model, f) == target` (SQLAlchemy
turns `== None` into `IS NULL`, which Option equality mirrors). -/
def rowMatchesFactors (fds : List (String × FactorDesc)) (d : List (String × String)) (r : Row) : Bool :=
  fds.all (fun p => lookupFactor r p.1 == factorTarget d p.1 p.2)

/-- The row set of the fips-value extraction query: measure equality
(lines 252-255), the factor predicates when the model has truthy factors
(lines 265-274), and the `LIMIT_TO_STATE` predicate (lines 282-283). -/
def fipsFilteredRows (ds : Dataset) (lim : Option String) (d : List (String × String))
    (table : List Row) (m : String) : List Row :=
  table.filter (fun r =>
    measureOf ds r == m
    && (if factorsTruthy ds.factorDescs then rowMatchesFactors (ds.factorDescs.getD []) d r else true)
    && stateOk lim r)

/-- One response entry (lines 300-303): `{"value": x["value"]}` for a
standard model, `{"value": x["value"], "aac": x["aac"]}` (AAR/AAC) for a
cancer model. -/
def mkFIPSValue (ds : Dataset) (r : Row) : FIPSValue :=
  if ds.isCancer then { value := r.AAR, aac := r.AAC } else { value := r.value, aac := none }

/-- The successful fips-value response for an already-parsed predicate `d`:
the range query of lines 287-293 (`min`/`max` of the value column filtered
by the measure column only — neither the factor predicates nor
`LIMIT_TO_STATE` are put on `stats_query`) and the FIPS-keyed dict built by
the comprehension of lines 300-303. -/
def fipsResponse (ds : Dataset) (lim : Option String) (table : List Row) (m : String)
    (d : List (String × String)) : FIPSMeasureResponse :=
  { min := ((table.filter (fun r => measureOf ds r == m)).map (valueOf ds)).min?
    max := ((table.filter (fun r => measureOf ds r == m)).map (valueOf ds)).max?
    values := pyDictOf ((fipsFilteredRows ds lim d table m).map (fun r => (r.FIPS, mkFIPSValue ds r))) }

/-- `get_dataset_fips`: validate and parse `filters` (regex of line 246,
parse of line 263), reject a supplied `filters` for a model with falsy
factors (lines 275-280), and otherwise answer with the range and the
FIPS-value dict. -/
def get_dataset_fips (ds : Dataset) (lim : Option String) (table : List Row)
    (measure : String) (filters : Option String) : Except ApiError FIPSMeasureResponse :=
  match parseFilters filters with
  | .error e => .error e
  | .ok filter_factors =>
    if !factorsTruthy ds.factorDescs && filters.isSome then
      .error .FactorsNotSupportedError
    else
      .ok (fipsResponse ds lim table measure filter_factors)

/-! ### `get_dataset` (lines 210-223)

The paginated list-rows endpoint: `select(model)` (all columns), the
`LIMIT_TO_STATE` predicate, and — when `measure` is given — the filter
`model.measure == measure`.  Note that this endpoint, unlike its three
siblings, does not branch on `CANCER_MODELS`: the raw `measure` attribute
is used for every model.
-/

/-- The row set of the list-rows endpoint (pagination is the collaborator's
concern and is not modelled). -/
def get_dataset (ds : Dataset) (lim : Option String) (table : List Row)
    (measure : Option String) : List Row :=
  table.filter (fun r =>
    stateOk lim r
    && (match measure with
        | some m => r.measure == m
        | none => true))

/-! ### Labels (`get_measures` lines 119-138, `label_for_measure` lines 328-329)

Both places use the pattern `labels.get(x, x) or x`: prefer the configured
label, falling back to the raw identifier when the key is absent, and —
because of Python `or` on a falsy empty string — also when the configured
label is `""`.
-/

/-- `label_for_measure` (lines 328-329): `labels.get(measure, measure) or measure`. -/
def label_for_measure (model_measure_labels : List (String × String)) (measure : String) : String :=
  let l := pyGetD model_measure_labels measure measure
  if l = "" then measure else l

/-- The `measures` entries of one category of the metadata tree
(lines 121-126): each distinct measure id paired with
`measure_descs.get(x, x) or x`, which is exactly `label_for_measure`. -/
def measuresMeta (measure_descs : List (String × String)) (distinct : List String) :
    List (String × String) :=
  distinct.map (fun x => (x, label_for_measure measure_descs x))

/-- The `values` entries of one factor of the metadata tree
(lines 131-134): each distinct raw value paired with
`fv.get("values", {}).get(x, x) or x` — the same fallback pattern. -/
def factorValuesMeta (fv : FactorDesc) (distinct : List String) : List (String × String) :=
  distinct.map (fun x => (x, label_for_measure fv.valueLabels x))

/-! ### `download_dataset` (lines 318-387)

The CSV export.  The query selects
`(FIPS as GEOID, County, State, measure, value)` for a standard model and
`(FIPS as GEOID, County, State, Site as measure, AAR as value, RE, Sex)`
for a cancer model.  `model_to_fields` then reads `x[f]` for every declared
factor name `f`; a factor column that was not part of the selection raises
`KeyError` at that point (modelled as `none`), in which case the request
fails and no CSV reaches the client.
-/

/-- One CSV cell: a string column, a numeric column, or a nullable factor
column. -/
inductive CsvCell where
  | s : String → CsvCell
  | n : Int → CsvCell
  | opt : Option String → CsvCell
deriving DecidableEq

/-- The CSV output: the header written by line 375 and the data rows
written by lines 376-382. -/
structure CsvOut where
  header : List String
  rows : List (List CsvCell)
deriving DecidableEq

/-- `Option`-valued `mapM` over a list, used to model a sequence of
fallible Python evaluations. -/
def optMapM {α β : Type} (f : α → Option β) : List α → Option (List β)
  | [] => some []
  | a :: l =>
    match f a, optMapM f l with
    | some b, some bs => some (b :: bs)
    | _, _ => none

/-- `x[f]` for a factor column of a selected CSV record: the cancer query
selects exactly the `RE` and `Sex` columns (line 355), the standard query
selects no factor columns (lines 346-348); any other access is a
`KeyError`. -/
def csvFactorCell (ds : Dataset) (r : Row) (f : String) : Option CsvCell :=
  if ds.isCancer then
    if f = "RE" || f = "Sex" then some (.opt (lookupFactor r f)) else none
  else none

/-- `model_to_fields` (lines 331-343): the five base fields, then — when
`factor_labels is not None` — one field per declared factor name. -/
def model_to_fields (ds : Dataset) (r : Row) : Option (List CsvCell) :=
  let base : List CsvCell :=
    [ .s r.FIPS, .s r.County, .s r.State,
      .s (label_for_measure ds.measureLabels (measureOf ds r)),
      .n (valueOf ds r) ]
  match ds.factorDescs with
  | none => some base
  | some fds => (optMapM (fun p => csvFactorCell ds r p.1) fds).map (fun cells => base ++ cells)

/-- `download_dataset`: filter by measure (with the `Site` branch for
cancer models, lines 350-359) and `LIMIT_TO_STATE` (lines 361-362), write
the header (lines 370-375) and one converted row per record
(lines 376-382).  A `KeyError` while converting any record aborts the
response, so the client receives either the whole CSV or nothing. -/
def download_dataset (ds : Dataset) (lim : Option String) (table : List Row)
    (measure : Option String) : Option CsvOut :=
  let rows := table.filter (fun r =>
    (match measure with
     | some m => measureOf ds r == m
     | none => true)
    && stateOk lim r)
  let header := ["GEOID", "County", "State", "measure", "value"] ++ factorNames ds
  (optMapM (model_to_fields ds) rows).map (fun body => { header := header, rows := body })

/-- Modelled from the spec words “min and max … taken over rows restricted
to both measureColumn == measure and the region limit on the State column”:
the range the claim describes, to compare with what the code computes. -/
def rangeWithRegionLimit (ds : Dataset) (lim : Option String) (table : List Row) (m : String) :
    Option Int × Option Int :=
  let vs := (table.filter (fun r => measureOf ds r == m && stateOk lim r)).map (valueOf ds)
  (vs.min?, vs.max?)

/-! ### Concrete fixtures used in claim-level witnesses and counterexamples -/

/-- A standard dataset with no `FACTOR_DESCRIPTIONS` entry. -/
def dsNoFactors : Dataset :=
  { isCancer := false, factorDescs := none, measureLabels := [] }

/-- A standard dataset declaring one factor `Sex` with default `Total`. -/
def dsSexTotal : Dataset :=
  { isCancer := false
    factorDescs := some [("Sex", { default := some "Total" })]
    measureLabels := [] }

/-- A standard dataset declaring one factor `Sex` with no default. -/
def dsSexNoDefault : Dataset :=
  { isCancer := false
    factorDescs := some [("Sex", {})]
    measureLabels := [] }

/-- A cancer-style dataset declaring factors `RE` and `Sex`. -/
def dsCancerEx : Dataset :=
  { isCancer := true
    factorDescs := some [("RE", {}), ("Sex", { default := some "Total" })]
    measureLabels := [] }

/-- A baseline row for building fixtures. -/
def rowBase : Row :=
  { FIPS := "08001", State := "Colorado", County := "Adams", measure := "m", Site := ""
    value := 0, AAR := 0, AAC := none, factors := [] }

def rowTotal : Row := { rowBase with FIPS := "08001", value := 1, factors := [("Sex", some "Total")] }

def rowFemale : Row := { rowBase with FIPS := "08003", value := 2, factors := [("Sex", some "Female")] }

def rowNullSex : Row := { rowBase with FIPS := "08005", value := 3, factors := [("Sex", none)] }

def rowCO : Row := { rowBase with FIPS := "08001", value := 5 }

def rowTX : Row := { rowBase with FIPS := "48001", State := "Texas", value := 99 }

def rowLung : Row :=
  { rowBase with FIPS := "08001", measure := "All Sites", Site := "Lung", AAR := 7, AAC := some 3
                 factors := [("RE", some "White"), ("Sex", some "Total")] }

def rowDup1 : Row := { rowBase with FIPS := "08001", value := 1 }

def rowDup2 : Row := { rowBase with FIPS := "08001", value := 2 }

/-- The CSV produced for `dsCancerEx` over `[rowLung]` with measure `Lung`. -/
def csvOutLung : CsvOut :=
  { header := ["GEOID", "County", "State", "measure", "value", "RE", "Sex"]
    rows := [[.s "08001", .s "Adams", .s "Colorado", .s "Lung", .n 7,
              .opt (some "White"), .opt (some "Total")]] }

/-- The fips-value response for `dsNoFactors` over the duplicate-FIPS table. -/
def respDup : FIPSMeasureResponse :=
  { min := some 1, max := some 2, values := [("08001", { value := 2, aac := none })] }

/-! ## Supporting lemmas -/

/-! ### `pySplit` and `pySplitMax` -/

theorem pySplit_ne_nil (sep : Char) (cs : List Char) : pySplit sep cs ≠ [] := by
  induction cs with
  | nil => simp [pySplit]
  | cons c cs ih =>
    simp only [pySplit]
    split
    · simp
    · cases h : pySplit sep cs with
      | nil => exact absurd h ih
      | cons s ss => simp [h]

theorem pySplit_sep_cons (sep : Char) (cs : List Char) :
    pySplit sep (sep :: cs) = [] :: pySplit sep cs := by
  simp [pySplit]

theorem pySplit_cons_ne (sep c : Char) (h : c ≠ sep) (cs : List Char) :
    ∃ s ss, pySplit sep cs = s :: ss ∧ pySplit sep (c :: cs) = (c :: s) :: ss := by
  cases hs : pySplit sep cs with
  | nil => exact absurd hs (pySplit_ne_nil sep cs)
  | cons s ss => exact ⟨s, ss, rfl, by simp [pySplit, h, hs]⟩

theorem pySplit_no_sep (sep : Char) (cs : List Char) (h : ∀ c ∈ cs, c ≠ sep) :
    pySplit sep cs = [cs] := by
  induction cs with
  | nil => rfl
  | cons c cs ih =>
    have hc : c ≠ sep := h c (by simp)
    have ihh := ih (fun x hx => h x (by simp [hx]))
    simp [pySplit, hc, ihh]

theorem pySplit_append_sep (sep : Char) (seg rest : List Char) (h : ∀ c ∈ seg, c ≠ sep) :
    pySplit sep (seg ++ sep :: rest) = seg :: pySplit sep rest := by
  induction seg with
  | nil => simp [pySplit]
  | cons c seg ih =>
    have hc : c ≠ sep := h c (by simp)
    have ihh := ih (fun x hx => h x (by simp [hx]))
    simp [pySplit, hc, ihh]

theorem pySplit_eq_single (sep : Char) (cs v : List Char) (h : pySplit sep cs = [v]) :
    cs = v ∧ ∀ c ∈ v, c ≠ sep := by
  induction cs generalizing v with
  | nil =>
    simp only [pySplit] at h
    injection h with h1 _
    subst h1
    exact ⟨rfl, by simp⟩
  | cons c cs ih =>
    by_cases hc : c = sep
    · rw [hc, pySplit_sep_cons] at h
      injection h with h1 h2
      exact absurd h2 (pySplit_ne_nil sep cs)
    · obtain ⟨s, ss, hs, he⟩ := pySplit_cons_ne sep c hc cs
      rw [he] at h
      injection h with h1 h2
      subst h2
      obtain ⟨hcs, hfree⟩ := ih s hs
      subst hcs
      constructor
      · exact h1
      · intro x hx
        rw [← h1] at hx
        rcases List.mem_cons.mp hx with hx | hx
        · subst hx; exact hc
        · exact hfree x hx

theorem pySplit_eq_pair (sep : Char) (cs n v : List Char) (h : pySplit sep cs = [n, v]) :
    cs = n ++ sep :: v ∧ (∀ c ∈ n, c ≠ sep) ∧ (∀ c ∈ v, c ≠ sep) := by
  induction cs generalizing n with
  | nil => simp only [pySplit] at h; injection h with _ h2; exact absurd h2 (by simp)
  | cons c cs ih =>
    by_cases hc : c = sep
    · rw [hc, pySplit_sep_cons] at h
      injection h with h1 h2
      obtain ⟨hcs, hfree⟩ := pySplit_eq_single sep cs v h2
      refine ⟨?_, ?_, hfree⟩
      · rw [hc, hcs, ← h1]; rfl
      · rw [← h1]; simp
    · obtain ⟨s, ss, hs, he⟩ := pySplit_cons_ne sep c hc cs
      rw [he] at h
      injection h with h1 h2
      obtain ⟨hcs, hnf, hvf⟩ := ih s (by rw [hs, h2])
      subst hcs
      constructor
      · rw [← h1]; rfl
      · constructor
        · intro x hx
          rw [← h1] at hx
          rcases List.mem_cons.mp hx with hx | hx
          · subst hx; exact hc
          · exact hnf x hx
        · exact hvf

theorem pySplitMax_ne_nil (sep : Char) (k : Nat) (cs : List Char) :
    pySplitMax sep k cs ≠ [] := by
  cases cs with
  | nil => simp [pySplitMax]
  | cons c cs =>
    cases k with
    | zero => simp [pySplitMax]
    | succ k =>
      simp only [pySplitMax]
      split
      · simp
      · split <;> simp

theorem pySplitMax_length (sep : Char) (k : Nat) (cs : List Char) :
    (pySplitMax sep k cs).length = min (pySplit sep cs).length (k + 1) := by
  induction cs generalizing k with
  | nil => simp [pySplitMax, pySplit]
  | cons c cs ih =>
    cases k with
    | zero =>
      have h1 : 1 ≤ (pySplit sep (c :: cs)).length :=
        List.length_pos.mpr (pySplit_ne_nil sep (c :: cs))
      have h2 : pySplitMax sep 0 (c :: cs) = [c :: cs] := by simp [pySplitMax]
      rw [h2]
      simp only [List.length_singleton]
      omega
    | succ k =>
      by_cases hc : c = sep
      · have h2 : pySplitMax sep (k + 1) (sep :: cs) = [] :: pySplitMax sep k cs := by
          simp [pySplitMax]
        rw [hc, pySplit_sep_cons, h2, List.length_cons, List.length_cons, ih k]
        omega
      · obtain ⟨s, ss, hs, he⟩ := pySplit_cons_ne sep c hc cs
        rw [he]
        have hlen : (pySplitMax sep (k + 1) (c :: cs)).length
            = (pySplitMax sep (k + 1) cs).length := by
          simp only [pySplitMax, if_neg hc]
          cases hm : pySplitMax sep (k + 1) cs with
          | nil => exact absurd hm (pySplitMax_ne_nil sep (k + 1) cs)
          | cons a t => simp [hm]
        rw [hlen, ih (k + 1), hs]
        simp

/-! ### `parseEntries` -/

theorem parseEntries_cons_pair (seg : List Char) (rest : List (List Char)) (n v : List Char)
    (h : pySplitMax ':' 2 seg = [n, v]) :
    parseEntries (seg :: rest)
      = (parseEntries rest).map
          (fun t => (String.mk (pyStrip n), String.mk (pyStrip v)) :: t) := by
  simp [parseEntries, h]

theorem parseEntries_cons_bad (seg : List Char) (rest : List (List Char))
    (h : (pySplitMax ':' 2 seg).length ≠ 2) :
    parseEntries (seg :: rest) = .error .MalformedFilterError := by
  rcases hsp : pySplitMax ':' 2 seg with _ | ⟨a, _ | ⟨b, _ | ⟨c, t3⟩⟩⟩
  · simp [parseEntries, hsp]
  · simp [parseEntries, hsp]
  · rw [hsp] at h; simp at h
  · simp [parseEntries, hsp]

theorem parseEntries_error_of_mem (segs : List (List Char)) (seg : List Char)
    (hseg : seg ∈ segs) (hbad : (pySplitMax ':' 2 seg).length ≠ 2) :
    parseEntries segs = .error .MalformedFilterError := by
  induction segs with
  | nil => simp at hseg
  | cons s rest ih =>
    rcases List.mem_cons.mp hseg with hs | hs
    · rw [← hs]; exact parseEntries_cons_bad seg rest hbad
    · by_cases hlen : (pySplitMax ':' 2 s).length = 2
      · obtain ⟨a, b, hab⟩ := List.length_eq_two.mp hlen
        rw [parseEntries_cons_pair s rest a b hab, ih hs]
        rfl
      · exact parseEntries_cons_bad s rest hlen

/-! ### The filter-regex automaton -/

theorem frun_none (cs : List Char) : frun none cs = none := by
  induction cs with
  | nil => rfl
  | cons c cs ih => simpa [frun, List.foldl_cons] using ih

theorem frun_cons (s : FState) (c : Char) (cs : List Char) :
    frun (some s) (c :: cs) = frun (fstep s c) cs := by
  simp [frun, List.foldl_cons]

theorem frun_append (s : Option FState) (xs ys : List Char) :
    frun s (xs ++ ys) = frun (frun s xs) ys := by
  simp [frun, List.foldl_append]

theorem frun_name_noColon (p : List Char) (h : ∀ c ∈ p, c ≠ ':') :
    frun (some .name) p = some .name := by
  induction p with
  | nil => rfl
  | cons c p ih =>
    have hc : c ≠ ':' := h c (by simp)
    rw [frun_cons]
    simp only [fstep, if_neg hc]
    exact ih (fun x hx => h x (by simp [hx]))

theorem frun_name0_of_ne_nil (p : List Char) (hp : p ≠ []) (h : ∀ c ∈ p, c ≠ ':') :
    frun (some .name0) p = some .name := by
  cases p with
  | nil => exact absurd rfl hp
  | cons c p =>
    have hc : c ≠ ':' := h c (by simp)
    rw [frun_cons]
    simp only [fstep, if_neg hc]
    exact frun_name_noColon p (fun x hx => h x (by simp [hx]))

theorem frun_val_clean (q : List Char) (h : ∀ c ∈ q, c ≠ ':' ∧ c ≠ ';') :
    frun (some .val) q = some .val := by
  induction q with
  | nil => rfl
  | cons c q ih =>
    obtain ⟨hc1, hc2⟩ := h c (by simp)
    rw [frun_cons]
    simp only [fstep, if_neg hc1, if_neg hc2]
    exact ih (fun x hx => h x (by simp [hx]))

/-- Step computations of the automaton on the two delimiter characters. -/
theorem fstep_name0_colon : fstep .name0 ':' = none := rfl

theorem fstep_name_colon : fstep .name ':' = some .val0 := rfl

theorem fstep_val0_semi : fstep .val0 ';' = none := rfl

theorem fstep_val_semi : fstep .val ';' = some .name0 := rfl

/-- Running the automaton over one full `name:value` block from the start
state ends in the accepting state. -/
theorem frun_block (n v : List Char) (hn : n ≠ []) (hnf : ∀ c ∈ n, c ≠ ':')
    (hv : v ≠ []) (hvf : ∀ c ∈ v, c ≠ ':' ∧ c ≠ ';') :
    frun (some .name0) (n ++ ':' :: v) = some .val := by
  rw [frun_append, frun_name0_of_ne_nil n hn hnf, frun_cons, fstep_name_colon]
  cases v with
  | nil => exact absurd rfl hv
  | cons c v =>
    obtain ⟨hc1, hc2⟩ := hvf c (by simp)
    rw [frun_cons]
    simp only [fstep, if_neg hc1, if_neg hc2]
    exact frun_val_clean v (fun x hx => hvf x (by simp [hx]))

theorem matchRegexChars_iff (cs : List Char) :
    matchRegexChars cs = true ↔ frun (some .name0) cs = some .val := by
  unfold matchRegexChars
  cases h : frun (some .name0) cs with
  | none => simp
  | some st => cases st <;> simp

/-- A character list accepted by the filter regex in which every
`;`-segment has exactly one colon is exactly a grammar-conforming filter
string: every segment's name and value part are nonempty. -/
theorem regex_segments_good (fuel : Nat) :
    ∀ cs : List Char, cs.length ≤ fuel →
      matchRegexChars cs = true →
      (∀ seg ∈ pySplit ';' cs, ∃ n v, pySplit ':' seg = [n, v]) →
      ∀ seg ∈ pySplit ';' cs, ∃ n v, pySplit ':' seg = [n, v] ∧ n ≠ [] ∧ v ≠ [] := by
  induction fuel with
  | zero =>
    intro cs hlen hm _ seg _
    have hnil : cs = [] := List.length_eq_zero.mp (Nat.le_zero.mp hlen)
    subst hnil
    simp [matchRegexChars, frun] at hm
  | succ fuel ih =>
    intro cs hlen hm hall
    have hmv := (matchRegexChars_iff cs).mp hm
    have hcs : cs.takeWhile (fun c => c != ';') ++ cs.dropWhile (fun c => c != ';') = cs :=
      List.takeWhile_append_dropWhile (fun c => c != ';') cs
    have hseg0free : ∀ c ∈ cs.takeWhile (fun c : Char => c != ';'), c ≠ ';' := by
      intro c hc
      have := List.mem_takeWhile_imp hc
      simpa using this
    cases hrest : cs.dropWhile (fun c => c != ';') with
    | nil =>
      rw [hrest, List.append_nil] at hcs
      rw [hcs] at hseg0free
      have hsplit : pySplit ';' cs = [cs] := pySplit_no_sep ';' cs hseg0free
      rw [hsplit]
      intro seg hseg
      rcases List.mem_singleton.mp hseg with rfl
      obtain ⟨n, v, hnv⟩ := hall seg (by rw [hsplit]; simp)
      obtain ⟨hseq, hnf, hvf⟩ := pySplit_eq_pair ':' seg n v hnv
      have hvsemi : ∀ c ∈ v, c ≠ ';' := by
        intro c hc
        refine hseg0free c ?_
        rw [hseq]
        simp [hc]
      have hn : n ≠ [] := by
        intro hne
        subst hne
        rw [hseq, List.nil_append, frun_cons, fstep_name0_colon, frun_none] at hmv
        exact Option.noConfusion hmv
      have hv : v ≠ [] := by
        intro hve
        subst hve
        rw [hseq, frun_append, frun_name0_of_ne_nil n hn hnf, frun_cons,
          fstep_name_colon] at hmv
        exact Option.noConfusion (hmv : some FState.val0 = some FState.val)
          (fun h => FState.noConfusion h)
      exact ⟨n, v, hnv, hn, hv⟩
    | cons r rest2 =>
      have hr : r = ';' := by
        have hfalse : (fun c : Char => c != ';') r = false := by
          have h2 := List.head?_dropWhile_not (fun c : Char => c != ';') cs
          rw [hrest] at h2
          simpa using h2
        simpa using hfalse
      subst hr
      rw [hrest] at hcs
      -- hcs : takeWhile ++ ';' :: rest2 = cs
      have hsplit : pySplit ';' cs
          = cs.takeWhile (fun c : Char => c != ';') :: pySplit ';' rest2 := by
        conv_lhs => rw [← hcs]
        exact pySplit_append_sep ';' _ rest2 hseg0free
      obtain ⟨n, v, hnv⟩ := hall (cs.takeWhile (fun c : Char => c != ';')) (by rw [hsplit]; simp)
      obtain ⟨hseq, hnf, hvf⟩ := pySplit_eq_pair ':' _ n v hnv
      have hvsemi : ∀ c ∈ v, c ≠ ';' := by
        intro c hc
        refine hseg0free c ?_
        rw [hseq]
        simp [hc]
      have hmv2 : frun (frun (some .name0) (n ++ ':' :: v)) (';' :: rest2) = some .val := by
        rw [← frun_append]
        have heq : n ++ ':' :: v ++ ';' :: rest2 = cs := by
          conv_rhs => rw [← hcs, hseq]
        rw [heq]
        exact hmv
      have hn : n ≠ [] := by
        intro hne
        subst hne
        rw [List.nil_append, frun_cons, fstep_name0_colon, frun_none, frun_none] at hmv2
        exact Option.noConfusion hmv2
      have hv : v ≠ [] := by
        intro hve
        subst hve
        rw [frun_append, frun_name0_of_ne_nil n hn hnf, frun_cons, fstep_name_colon] at hmv2
        rw [show frun (some FState.val0) ([] : List Char) = some FState.val0 from rfl] at hmv2
        rw [frun_cons, fstep_val0_semi, frun_none] at hmv2
        exact Option.noConfusion hmv2
      have hblock : frun (some .name0) (n ++ ':' :: v) = some .val :=
        frun_block n v hn hnf hv (fun c hc => ⟨hvf c hc, hvsemi c hc⟩)
      have hrec : matchRegexChars rest2 = true := by
        rw [matchRegexChars_iff]
        rw [hblock, frun_cons, fstep_val_semi] at hmv2
        exact hmv2
      have hlen2 : rest2.length ≤ fuel := by
        have hl : ((cs.takeWhile (fun c : Char => c != ';')) ++ ';' :: rest2).length = cs.length := by
          rw [hcs]
        simp [List.length_append] at hl
        omega
      have hall2 : ∀ seg ∈ pySplit ';' rest2, ∃ a b, pySplit ':' seg = [a, b] := by
        intro seg hseg
        exact hall seg (by rw [hsplit]; simp [hseg])
      have hrec2 := ih rest2 hlen2 hrec hall2
      rw [hsplit]
      intro seg hseg
      rcases List.mem_cons.mp hseg with rfl | hseg2
      · exact ⟨n, v, hnv, hn, hv⟩
      · exact hrec2 seg hseg2

/-! ### Python dict lemmas -/

theorem pyGet_nil {α : Type} (k : String) : pyGet ([] : List (String × α)) k = none := rfl

theorem pyGet_cons {α : Type} (p : String × α) (d : List (String × α)) (k : String) :
    pyGet (p :: d) k = if p.1 = k then some p.2 else pyGet d k := by
  by_cases h : p.1 = k
  · rw [if_pos h]
    unfold pyGet
    rw [List.find?_cons_of_pos _ (by simp [h])]
    rfl
  · rw [if_neg h]
    unfold pyGet
    rw [List.find?_cons_of_neg _ (by simp [h])]

theorem pyGet_pyDictInsert {α : Type} (d : List (String × α)) (k kq : String) (v : α) :
    pyGet (pyDictInsert d k v) kq = if kq = k then some v else pyGet d kq := by
  induction d with
  | nil =>
    rw [show pyDictInsert ([] : List (String × α)) k v = [(k, v)] from rfl, pyGet_cons]
    by_cases h : kq = k
    · rw [if_pos h.symm, if_pos h]
    · rw [if_neg (fun hh => h hh.symm), if_neg h]
  | cons p d ih =>
    by_cases hp : p.1 = k
    · rw [show pyDictInsert (p :: d) k v = (k, v) :: d by simp [pyDictInsert, hp]]
      rw [pyGet_cons, pyGet_cons]
      by_cases h : kq = k
      · rw [if_pos h.symm, if_pos h]
      · rw [if_neg (fun hh => h hh.symm), if_neg h,
          if_neg (fun hh : p.1 = kq => h (by rw [← hh]; exact hp))]
    · rw [show pyDictInsert (p :: d) k v = p :: pyDictInsert d k v by simp [pyDictInsert, hp]]
      rw [pyGet_cons, pyGet_cons]
      by_cases h2 : p.1 = kq
      · rw [if_pos h2, if_pos h2, if_neg (fun hh => hp (by rw [h2]; exact hh))]
      · rw [if_neg h2, if_neg h2, ih]

theorem pyDictInsert_keys_sub {α : Type} (d : List (String × α)) (k x : String) (v : α)
    (h : x ∈ (pyDictInsert d k v).map Prod.fst) : x ∈ d.map Prod.fst ∨ x = k := by
  induction d with
  | nil => simp [pyDictInsert] at h; exact Or.inr h
  | cons p d ih =>
    by_cases hp : p.1 = k
    · rw [show pyDictInsert (p :: d) k v = (k, v) :: d by simp [pyDictInsert, hp]] at h
      rcases List.mem_cons.mp h with h | h
      · exact Or.inr h
      · exact Or.inl (by simp; right; simpa using h)
    · rw [show pyDictInsert (p :: d) k v = p :: pyDictInsert d k v by simp [pyDictInsert, hp]] at h
      rcases List.mem_cons.mp h with h | h
      · exact Or.inl (by simp [h])
      · rcases ih h with h2 | h2
        · exact Or.inl (by simp; right; simpa using h2)
        · exact Or.inr h2

theorem pyDictInsert_keys_nodup {α : Type} (d : List (String × α)) (k : String) (v : α)
    (h : (d.map Prod.fst).Nodup) : ((pyDictInsert d k v).map Prod.fst).Nodup := by
  induction d with
  | nil => simp [pyDictInsert]
  | cons p d ih =>
    rw [List.map_cons, List.nodup_cons] at h
    by_cases hp : p.1 = k
    · rw [show pyDictInsert (p :: d) k v = (k, v) :: d by simp [pyDictInsert, hp]]
      rw [List.map_cons, List.nodup_cons]
      exact ⟨by rw [← hp]; exact h.1, h.2⟩
    · rw [show pyDictInsert (p :: d) k v = p :: pyDictInsert d k v by simp [pyDictInsert, hp]]
      rw [List.map_cons, List.nodup_cons]
      refine ⟨?_, ih h.2⟩
      intro hmem
      rcases pyDictInsert_keys_sub d k p.1 v hmem with h2 | h2
      · exact h.1 h2
      · exact hp h2

theorem pyDictOf_keys_nodup {α : Type} (l : List (String × α)) :
    ((pyDictOf l).map Prod.fst).Nodup := by
  have aux : ∀ (l d : List (String × α)), (d.map Prod.fst).Nodup →
      ((l.foldl (fun d p => pyDictInsert d p.1 p.2) d).map Prod.fst).Nodup := by
    intro l
    induction l with
    | nil => intro d hd; simpa using hd
    | cons p l ih =>
      intro d hd
      rw [List.foldl_cons]
      exact ih _ (pyDictInsert_keys_nodup d p.1 p.2 hd)
  exact aux l [] (by simp)

theorem pyGet_foldl_insert {α : Type} (l d : List (String × α)) (k : String) :
    pyGet (l.foldl (fun d p => pyDictInsert d p.1 p.2) d) k
      = ((l.reverse.find? (fun p => p.1 == k)).map (·.2)).or (pyGet d k) := by
  induction l generalizing d with
  | nil => simp
  | cons p l ih =>
    rw [List.foldl_cons, ih (pyDictInsert d p.1 p.2), List.reverse_cons, List.find?_append]
    cases hf : l.reverse.find? (fun q => q.1 == k) with
    | some q => rfl
    | none =>
      rw [pyGet_pyDictInsert]
      by_cases h : p.1 = k
      · have hfp : List.find? (fun q => q.1 == k) [p] = some p := by
          simp [List.find?_cons, h]
        rw [hfp, if_pos h.symm]
        rfl
      · have hfp : List.find? (fun q => q.1 == k) [p] = none := by
          simp [List.find?_cons, h]
        rw [hfp, if_neg (fun hh => h hh.symm)]
        rfl

/-- The fundamental dict-comprehension fact: looking up a key in
`pyDictOf l` yields the value of the last pair of `l` with that key. -/
theorem pyGet_pyDictOf {α : Type} (l : List (String × α)) (k : String) :
    pyGet (pyDictOf l) k = (l.reverse.find? (fun p => p.1 == k)).map (·.2) := by
  unfold pyDictOf
  rw [pyGet_foldl_insert]
  rw [pyGet_nil]
  cases l.reverse.find? (fun p => p.1 == k) <;> rfl

/-- Restricting a dict to keys satisfying `q` only changes lookups of keys
failing `q`. -/
theorem pyGet_filter_keys {α : Type} (d : List (String × α)) (q : String → Bool) (k : String) :
    pyGet (d.filter (fun p => q p.1)) k = if q k then pyGet d k else none := by
  induction d with
  | nil => simp [pyGet_nil]
  | cons p d ih =>
    rw [List.filter_cons]
    by_cases hq : q p.1
    · rw [if_pos hq, pyGet_cons, pyGet_cons]
      by_cases h : p.1 = k
      · rw [if_pos h, if_pos h, if_pos (h ▸ hq)]
      · rw [if_neg h, if_neg h, ih]
    · rw [if_neg hq, pyGet_cons, ih]
      by_cases h : p.1 = k
      · rw [if_pos h, if_neg (by rw [← h]; simpa using hq)]
        rw [← h]
        simp [hq]
      · rw [if_neg h]

/-! ### `optMapM` lemmas -/

theorem optMapM_length {α β : Type} (f : α → Option β) (l : List α) (l2 : List β)
    (h : optMapM f l = some l2) : l2.length = l.length := by
  induction l generalizing l2 with
  | nil =>
    have h2 : l2 = [] := (Option.some.inj h).symm
    simp [h2]
  | cons a l ih =>
    simp only [optMapM] at h
    cases hf : f a with
    | none => rw [hf] at h; exact absurd h (by simp)
    | some b =>
      rw [hf] at h
      cases hm : optMapM f l with
      | none => rw [hm] at h; exact absurd h (by simp)
      | some bs =>
        rw [hm] at h
        have hbl : b :: bs = l2 := by simpa using h
        rw [← hbl]
        simp [ih bs hm]

theorem optMapM_mem {α β : Type} (f : α → Option β) (l : List α) (l2 : List β)
    (h : optMapM f l = some l2) (b : β) (hb : b ∈ l2) : ∃ a ∈ l, f a = some b := by
  induction l generalizing l2 with
  | nil =>
    have h2 : l2 = [] := (Option.some.inj h).symm
    rw [h2] at hb
    simp at hb
  | cons a l ih =>
    simp only [optMapM] at h
    cases hf : f a with
    | none => rw [hf] at h; exact absurd h (by simp)
    | some c =>
      rw [hf] at h
      cases hm : optMapM f l with
      | none => rw [hm] at h; exact absurd h (by simp)
      | some bs =>
        rw [hm] at h
        have hcb : c :: bs = l2 := by simpa using h
        rw [← hcb] at hb
        rcases List.mem_cons.mp hb with hb | hb
        · exact ⟨a, by simp, by rw [hf, hb]⟩
        · obtain ⟨x, hx, hfx⟩ := ih bs hm hb
          exact ⟨x, by simp [hx], hfx⟩

/-! ### Unfolding lemmas for `get_dataset_fips` -/

theorem factorsTruthy_some (o : Option (List (String × FactorDesc)))
    (h : factorsTruthy o = true) : ∃ fds, o = some fds ∧ fds ≠ [] := by
  cases o with
  | none => simp [factorsTruthy] at h
  | some l =>
    refine ⟨l, rfl, ?_⟩
    simp only [factorsTruthy, Bool.not_eq_true'] at h
    simpa [List.isEmpty_iff] using h

theorem get_dataset_fips_eq (ds : Dataset) (lim : Option String) (table : List Row)
    (m : String) (fs : Option String) (d : List (String × String))
    (hp : parseFilters fs = .ok d) :
    get_dataset_fips ds lim table m fs
      = if (!factorsTruthy ds.factorDescs && fs.isSome) then .error .FactorsNotSupportedError
        else .ok (fipsResponse ds lim table m d) := by
  unfold get_dataset_fips
  rw [hp]

theorem get_dataset_fips_ok_inv (ds : Dataset) (lim : Option String) (table : List Row)
    (m : String) (fs : Option String) (resp : FIPSMeasureResponse)
    (h : get_dataset_fips ds lim table m fs = .ok resp) :
    ∃ d, parseFilters fs = .ok d ∧ resp = fipsResponse ds lim table m d := by
  cases hp : parseFilters fs with
  | error e =>
    unfold get_dataset_fips at h
    rw [hp] at h
    exact absurd h (by simp)
  | ok d =>
    rw [get_dataset_fips_eq ds lim table m fs d hp] at h
    by_cases hc : (!factorsTruthy ds.factorDescs && fs.isSome) = true
    · rw [if_pos hc] at h; exact absurd h (by simp)
    · rw [if_neg hc] at h
      exact ⟨d, rfl, (Except.ok.inj h).symm⟩

theorem rowMatchesFactors_restrict (fds : List (String × FactorDesc))
    (d : List (String × String)) (r : Row) (q : String → Bool)
    (hq : ∀ p ∈ fds, q p.1 = true) :
    rowMatchesFactors fds (d.filter (fun p => q p.1)) r = rowMatchesFactors fds d r := by
  induction fds with
  | nil => rfl
  | cons p fds ih =>
    have htgt : factorTarget (d.filter (fun p => q p.1)) p.1 p.2 = factorTarget d p.1 p.2 := by
      unfold factorTarget
      rw [pyGet_filter_keys, if_pos (hq p (by simp))]
    simp only [rowMatchesFactors, List.all_cons] at *
    rw [htgt, ih (fun x hx => hq x (by simp [hx]))]

theorem model_to_fields_length (ds : Dataset) (r : Row) (cells : List CsvCell)
    (h : model_to_fields ds r = some cells) : cells.length = 5 + (factorNames ds).length := by
  unfold model_to_fields at h
  cases hfd : ds.factorDescs with
  | none =>
    rw [hfd] at h
    have h2 := Option.some.inj h
    rw [← h2]
    simp [factorNames, hfd]
  | some fds =>
    rw [hfd] at h
    obtain ⟨fcs, hfcs, hcells⟩ := Option.map_eq_some'.mp h
    rw [← hcells]
    simp [List.length_append, factorNames, hfd, optMapM_length _ _ _ hfcs]
    omega

/-! ## Claim-level theorems -/

/-- C1 (counterexample): a dataset declaring the single factor `Sex` and a
parsed predicate naming only the unknown factor `Bogus` make `fips-value`
SUCCEED — no `UnknownFactorError` (or any error) is raised, contradicting
the claim that the operation fails. -/
theorem unknownFactor_fips_succeeds_cex :
    get_dataset_fips dsSexNoDefault none [rowNullSex] "m" (some "Bogus:X")
      = .ok { min := some 3, max := some 3, values := [("08005", { value := 3, aac := none })] } := by
  decide

/-- C1 (amended): for a dataset with (truthy) declared factors and any
filter string the pipeline accepts, `fips-value` succeeds, and predicate
entries whose factor name is not among the declared factor names are
silently ignored: restricting the predicate to declared names leaves the
extracted row set unchanged. -/
theorem unknownFactor_silently_ignored (ds : Dataset) (lim : Option String) (table : List Row)
    (m s : String) (d : List (String × String))
    (hF : factorsTruthy ds.factorDescs = true)
    (hp : parseFilters (some s) = .ok d) :
    get_dataset_fips ds lim table m (some s) = .ok (fipsResponse ds lim table m d)
    ∧ fipsFilteredRows ds lim (d.filter (fun p => (factorNames ds).contains p.1)) table m
        = fipsFilteredRows ds lim d table m := by
  constructor
  · rw [get_dataset_fips_eq ds lim table m (some s) d hp]
    simp [hF]
  · obtain ⟨fds, hfds, -⟩ := factorsTruthy_some ds.factorDescs hF
    have hq : ∀ p ∈ fds, (factorNames ds).contains p.1 = true := by
      intro p hpm
      have hmem : p.1 ∈ factorNames ds := by
        simp only [factorNames, hfds]
        exact List.mem_map_of_mem Prod.fst hpm
      simpa using hmem
    unfold fipsFilteredRows
    have hfun : ∀ r : Row,
        (if factorsTruthy ds.factorDescs then
            rowMatchesFactors (ds.factorDescs.getD []) (d.filter (fun p => (factorNames ds).contains p.1)) r
          else true)
        = (if factorsTruthy ds.factorDescs then rowMatchesFactors (ds.factorDescs.getD []) d r
          else true) := by
      intro r
      rw [if_pos hF, if_pos hF, hfds]
      exact rowMatchesFactors_restrict fds d r (fun k => (factorNames ds).contains k) hq
    exact List.filter_congr (fun r _ => by rw [hfun r])

/-- C1 (amended) witness at a concrete dataset, table and filter string. -/
theorem unknownFactor_silently_ignored_witness :
    factorsTruthy dsSexTotal.factorDescs = true
    ∧ parseFilters (some "Bogus:X") = .ok [("Bogus", "X")]
    ∧ get_dataset_fips dsSexTotal none [rowTotal, rowFemale] "m" (some "Bogus:X")
        = .ok (fipsResponse dsSexTotal none [rowTotal, rowFemale] "m" [("Bogus", "X")])
    ∧ fipsFilteredRows dsSexTotal none
          ([("Bogus", "X")].filter (fun p => (factorNames dsSexTotal).contains p.1))
          [rowTotal, rowFemale] "m"
        = fipsFilteredRows dsSexTotal none [("Bogus", "X")] [rowTotal, rowFemale] "m" :=
  ⟨by decide, by decide,
   (unknownFactor_silently_ignored dsSexTotal none [rowTotal, rowFemale] "m" "Bogus:X"
     [("Bogus", "X")] (by decide) (by decide)).1,
   (unknownFactor_silently_ignored dsSexTotal none [rowTotal, rowFemale] "m" "Bogus:X"
     [("Bogus", "X")] (by decide) (by decide)).2⟩

/-- C2 (counterexample): with `LIMIT_TO_STATE = Colorado` and a table
holding a Colorado row (value 5) and a Texas row (value 99) for the same
measure, the code answers `max = 99`, while the range over rows restricted
by both the measure and the region limit has `max = 5`: the claimed
restriction does not hold. -/
theorem range_ignores_region_limit_cex :
    ∃ resp, get_dataset_fips dsNoFactors (some "Colorado") [rowCO, rowTX] "m" none = .ok resp
    ∧ resp.max ≠ (rangeWithRegionLimit dsNoFactors (some "Colorado") [rowCO, rowTX] "m").2 := by
  refine ⟨{ min := some 5, max := some 99, values := [("08001", { value := 5, aac := none })] },
    by decide, by decide⟩

/-- C2 (amended): the `min`/`max` of a successful fips-value response are
the aggregates of the value column over the rows restricted by
`measureColumn == measure` ONLY — `stats_query` carries neither the factor
predicates nor the `LIMIT_TO_STATE` restriction. -/
theorem range_restricted_by_measure_not_region (ds : Dataset) (lim : Option String)
    (table : List Row) (m : String) (fs : Option String) (resp : FIPSMeasureResponse)
    (h : get_dataset_fips ds lim table m fs = .ok resp) :
    resp.min = ((table.filter (fun r => measureOf ds r == m)).map (valueOf ds)).min?
    ∧ resp.max = ((table.filter (fun r => measureOf ds r == m)).map (valueOf ds)).max? := by
  obtain ⟨d, -, hr⟩ := get_dataset_fips_ok_inv ds lim table m fs resp h
  rw [hr]
  exact ⟨rfl, rfl⟩

/-- C2 (amended) witness at a concrete limited dataset. -/
theorem range_restricted_by_measure_not_region_witness :
    get_dataset_fips dsNoFactors (some "Colorado") [rowCO, rowTX] "m" none
      = .ok { min := some 5, max := some 99, values := [("08001", { value := 5, aac := none })] }
    ∧ ({ min := some 5, max := some 99,
         values := [("08001", { value := 5, aac := none })] } : FIPSMeasureResponse).min
        = (([rowCO, rowTX].filter (fun r => measureOf dsNoFactors r == "m")).map
            (valueOf dsNoFactors)).min?
    ∧ ({ min := some 5, max := some 99,
         values := [("08001", { value := 5, aac := none })] } : FIPSMeasureResponse).max
        = (([rowCO, rowTX].filter (fun r => measureOf dsNoFactors r == "m")).map
            (valueOf dsNoFactors)).max? := by
  have h : get_dataset_fips dsNoFactors (some "Colorado") [rowCO, rowTX] "m" none
      = .ok { min := some 5, max := some 99, values := [("08001", { value := 5, aac := none })] } := by
    decide
  exact ⟨h, (range_restricted_by_measure_not_region dsNoFactors (some "Colorado")
      [rowCO, rowTX] "m" none _ h).1,
    (range_restricted_by_measure_not_region dsNoFactors (some "Colorado")
      [rowCO, rowTX] "m" none _ h).2⟩

/-- C3 (code bug, evaluated at the failing input): the list-rows endpoint
filters with the raw `measure` attribute for every dataset — it has no
`CANCER_MODELS` branch — so for a CancerStyle dataset a row whose `Site`
equals the requested measure is dropped, although the dataset's measure
column is `Site` (as the three sibling endpoints in the same file use). -/
theorem get_dataset_measure_filter_ignores_site :
    get_dataset dsCancerEx none [rowLung] (some "Lung") = []
    ∧ measureOf dsCancerEx rowLung = "Lung"
    ∧ rowLung.measure = "All Sites" := by
  decide

/-- C4: the `min`/`max` of the fips-value response do not depend on the
filter predicate: two successful calls differing only in their filter
string return identical ranges, both equal to the aggregates restricted by
`measureColumn == measure` only. -/
theorem range_independent_of_filter_predicate (ds : Dataset) (lim : Option String)
    (table : List Row) (m : String) (fs1 fs2 : Option String)
    (r1 r2 : FIPSMeasureResponse)
    (h1 : get_dataset_fips ds lim table m fs1 = .ok r1)
    (h2 : get_dataset_fips ds lim table m fs2 = .ok r2) :
    r1.min = r2.min ∧ r1.max = r2.max
    ∧ r1.min = ((table.filter (fun r => measureOf ds r == m)).map (valueOf ds)).min?
    ∧ r1.max = ((table.filter (fun r => measureOf ds r == m)).map (valueOf ds)).max? := by
  obtain ⟨d1, -, hr1⟩ := get_dataset_fips_ok_inv ds lim table m fs1 r1 h1
  obtain ⟨d2, -, hr2⟩ := get_dataset_fips_ok_inv ds lim table m fs2 r2 h2
  rw [hr1, hr2]
  exact ⟨rfl, rfl, rfl, rfl⟩

/-- C4 witness: two different factor selections over the same measure. -/
theorem range_independent_of_filter_predicate_witness :
    get_dataset_fips dsSexTotal none [rowTotal, rowFemale] "m" (some "Sex:Female")
      = .ok { min := some 1, max := some 2, values := [("08003", { value := 2, aac := none })] }
    ∧ get_dataset_fips dsSexTotal none [rowTotal, rowFemale] "m" (some "Sex:Total")
      = .ok { min := some 1, max := some 2, values := [("08001", { value := 1, aac := none })] }
    ∧ ({ min := some 1, max := some 2,
         values := [("08003", { value := 2, aac := none })] } : FIPSMeasureResponse).min
        = ({ min := some 1, max := some 2,
             values := [("08001", { value := 1, aac := none })] } : FIPSMeasureResponse).min
    ∧ ({ min := some 1, max := some 2,
         values := [("08003", { value := 2, aac := none })] } : FIPSMeasureResponse).max
        = ({ min := some 1, max := some 2,
             values := [("08001", { value := 1, aac := none })] } : FIPSMeasureResponse).max := by
  have h1 : get_dataset_fips dsSexTotal none [rowTotal, rowFemale] "m" (some "Sex:Female")
      = .ok { min := some 1, max := some 2, values := [("08003", { value := 2, aac := none })] } := by
    decide
  have h2 : get_dataset_fips dsSexTotal none [rowTotal, rowFemale] "m" (some "Sex:Total")
      = .ok { min := some 1, max := some 2, values := [("08001", { value := 1, aac := none })] } := by
    decide
  have hthm := range_independent_of_filter_predicate dsSexTotal none [rowTotal, rowFemale]
    "m" (some "Sex:Female") (some "Sex:Total") _ _ h1 h2
  exact ⟨h1, h2, hthm.1, hthm.2.1⟩

/-- C5: for a declared factor omitted from the parsed predicate, every row
in the fips-value extraction set satisfies `factorColumn == default` — the
declared default when one exists, and `NULL` (`none`) when none does, so
NULL-factor rows are matched rather than the filter being skipped. -/
theorem omitted_factor_default_applied (ds : Dataset) (lim : Option String)
    (table : List Row) (m : String) (d : List (String × String))
    (fds : List (String × FactorDesc)) (f : String) (fv : FactorDesc) (r : Row)
    (hfds : ds.factorDescs = some fds)
    (hmem : (f, fv) ∈ fds)
    (homit : pyGet d f = none)
    (hr : r ∈ fipsFilteredRows ds lim d table m) :
    lookupFactor r f = fv.default := by
  have htru : factorsTruthy ds.factorDescs = true := by
    rw [hfds]
    cases fds with
    | nil => simp at hmem
    | cons a l => simp [factorsTruthy]
  unfold fipsFilteredRows at hr
  obtain ⟨-, hcond⟩ := List.mem_filter.mp hr
  simp only [Bool.and_eq_true] at hcond
  obtain ⟨⟨-, hB⟩, -⟩ := hcond
  rw [if_pos htru, hfds] at hB
  simp only [Option.getD_some] at hB
  unfold rowMatchesFactors at hB
  rw [List.all_eq_true] at hB
  have hbeq := hB (f, fv) hmem
  have heq : lookupFactor r f = factorTarget d f fv := by
    exact eq_of_beq (by simpa using hbeq)
  rw [heq]
  unfold factorTarget
  rw [homit]

/-- C5 witness: dataset declaring `Sex` with default `Total`, empty
predicate; the kept row carries `Sex = Total`. -/
theorem omitted_factor_default_applied_witness :
    rowTotal ∈ fipsFilteredRows dsSexTotal none [] [rowTotal, rowFemale] "m"
    ∧ lookupFactor rowTotal "Sex" = some "Total" := by
  have hr : rowTotal ∈ fipsFilteredRows dsSexTotal none [] [rowTotal, rowFemale] "m" := by
    decide
  refine ⟨hr, ?_⟩
  exact omitted_factor_default_applied dsSexTotal none [rowTotal, rowFemale] "m" []
    [("Sex", { default := some "Total" })] "Sex" { default := some "Total" } rowTotal
    (by decide) (by decide) (by decide) hr

/-- C6: for a dataset whose factor table is falsy (no entry, or empty) and
any supplied filter string the pipeline parses, `fips-value` fails with
`FactorsNotSupportedError` (the HTTP 400 of lines 275-280) without
producing an extraction result. -/
theorem no_factors_filters_rejected (ds : Dataset) (lim : Option String) (table : List Row)
    (m s : String) (d : List (String × String))
    (hf : factorsTruthy ds.factorDescs = false)
    (hp : parseFilters (some s) = .ok d) :
    get_dataset_fips ds lim table m (some s) = .error .FactorsNotSupportedError := by
  rw [get_dataset_fips_eq ds lim table m (some s) d hp]
  simp [hf]

/-- C6 witness. -/
theorem no_factors_filters_rejected_witness :
    factorsTruthy dsNoFactors.factorDescs = false
    ∧ parseFilters (some "RE:White") = .ok [("RE", "White")]
    ∧ get_dataset_fips dsNoFactors none [] "m" (some "RE:White")
        = .error .FactorsNotSupportedError :=
  ⟨by decide, by decide,
   no_factors_filters_rejected dsNoFactors none [] "m" "RE:White" [("RE", "White")]
     (by decide) (by decide)⟩

/-- C7: every supplied filter string that fails the grammar
`entry (";" entry)*`, `entry := factorName ":" value` (empty segments,
missing colon, more than one colon, empty name or value) makes the filter
pipeline fail with `MalformedFilterError` — either at the wire-format regex
or inside `parse_filter_str` — while an absent filter string yields the
empty predicate rather than an error. -/
theorem malformed_filter_rejected (s : String) (h : filterGrammarMatches s = false) :
    parseFilters (some s) = .error .MalformedFilterError
    ∧ parseFilters none = .ok ([] : List (String × String)) := by
  refine ⟨?_, rfl⟩
  by_cases hm : matchRegex s = true
  · have hmc : matchRegexChars s.data = true := hm
    by_cases hall : ∀ seg ∈ pySplit ';' s.data, ∃ n v, pySplit ':' seg = [n, v]
    · exfalso
      have hgood := regex_segments_good s.data.length s.data le_rfl hmc hall
      have hg : filterGrammarMatches s = true := by
        unfold filterGrammarMatches
        rw [List.all_eq_true]
        intro seg hseg
        obtain ⟨n, v, hnv, hn, hv⟩ := hgood seg hseg
        obtain ⟨a, n2, rfl⟩ := List.exists_cons_of_ne_nil hn
        obtain ⟨b, v2, rfl⟩ := List.exists_cons_of_ne_nil hv
        simp [hnv]
      rw [h] at hg
      exact Bool.noConfusion hg
    · push_neg at hall
      obtain ⟨seg, hseg, hbad⟩ := hall
      have hlen2 : (pySplit ':' seg).length ≠ 2 := by
        intro hl
        obtain ⟨a, b, hab⟩ := List.length_eq_two.mp hl
        exact hbad a b hab
      have hl1 : 0 < (pySplit ':' seg).length := List.length_pos.mpr (pySplit_ne_nil ':' seg)
      have hmax : (pySplitMax ':' 2 seg).length ≠ 2 := by
        rw [pySplitMax_length, Nat.min_def]
        split <;> omega
      have herr := parseEntries_error_of_mem (pySplit ';' s.data) seg hseg hmax
      show (if matchRegex s then parse_filter_str s else .error .MalformedFilterError)
          = .error .MalformedFilterError
      rw [if_pos hm]
      unfold parse_filter_str
      rw [herr]
      rfl
  · show (if matchRegex s then parse_filter_str s else .error .MalformedFilterError)
        = .error .MalformedFilterError
    rw [if_neg hm]

/-- C7 witness: a colonless string is rejected; an absent one is not. -/
theorem malformed_filter_rejected_witness :
    filterGrammarMatches "abc" = false
    ∧ parseFilters (some "abc") = .error .MalformedFilterError
    ∧ parseFilters none = .ok ([] : List (String × String)) :=
  ⟨by decide, (malformed_filter_rejected "abc" (by decide)).1,
   (malformed_filter_rejected "abc" (by decide)).2⟩

/-- C8: whenever the CSV export produces output, its header row is exactly
`GEOID, County, State, measure, value` followed by the declared factor
names in declaration order, and every data row has exactly as many columns
as the header (5 plus the number of declared factors). -/
theorem csv_header_and_row_width (ds : Dataset) (lim : Option String) (table : List Row)
    (m : Option String) (out : CsvOut)
    (h : download_dataset ds lim table m = some out) :
    out.header = ["GEOID", "County", "State", "measure", "value"] ++ factorNames ds
    ∧ ∀ row ∈ out.rows, row.length = out.header.length := by
  unfold download_dataset at h
  obtain ⟨body, hbody, hout⟩ := Option.map_eq_some'.mp h
  rw [← hout]
  refine ⟨rfl, ?_⟩
  intro row hrow
  obtain ⟨r, -, hf⟩ := optMapM_mem _ _ _ hbody row hrow
  rw [model_to_fields_length ds r row hf]
  simp [List.length_append]
  omega

/-- C8 witness: a CancerStyle dataset with factors `RE`, `Sex`. -/
theorem csv_header_and_row_width_witness :
    download_dataset dsCancerEx none [rowLung] (some "Lung") = some csvOutLung
    ∧ csvOutLung.header = ["GEOID", "County", "State", "measure", "value"] ++ factorNames dsCancerEx
    ∧ ∀ row ∈ csvOutLung.rows, row.length = csvOutLung.header.length := by
  have h : download_dataset dsCancerEx none [rowLung] (some "Lung") = some csvOutLung := by
    decide
  have hthm := csv_header_and_row_width dsCancerEx none [rowLung] (some "Lung") csvOutLung h
  exact ⟨h, hthm.1, hthm.2⟩

/-- C9 (counterexample): for the raw measure id `""` with no configured
label, the metadata tree emits the empty string as the label — the claim
that no emitted label is ever empty fails at this input. -/
theorem empty_measure_id_empty_label_cex : measuresMeta [] [""] = [("", "")] := by
  decide

/-- C9 (amended): the emitted label is the configured one when present and
nonempty and the raw identifier otherwise, in the metadata tree and the CSV
export alike; an emitted label is empty only when the raw identifier itself
is the empty string. -/
theorem label_fallback_amended (descs : List (String × String)) (x : String) :
    (label_for_measure descs x
      = match pyGet descs x with
        | some l => if l = "" then x else l
        | none => x)
    ∧ (x ≠ "" → label_for_measure descs x ≠ "")
    ∧ measuresMeta descs [x] = [(x, label_for_measure descs x)]
    ∧ (∀ fv : FactorDesc, factorValuesMeta fv [x] = [(x, label_for_measure fv.valueLabels x)]) := by
  refine ⟨?_, ?_, rfl, fun fv => rfl⟩
  · unfold label_for_measure pyGetD
    cases h : pyGet descs x with
    | none => simp
    | some l => simp
  · intro hx
    unfold label_for_measure pyGetD
    cases h : pyGet descs x with
    | none => simpa using hx
    | some l =>
      by_cases hl : l = ""
      · simpa [hl] using hx
      · simp [hl]

/-- C9 (amended) witness: a configured empty label falls back to the raw
id, and the emitted label is nonempty for a nonempty id. -/
theorem label_fallback_amended_witness :
    label_for_measure [("m", "")] "m" = "m" ∧ label_for_measure [("m", "")] "m" ≠ "" := by
  have hthm := label_fallback_amended [("m", "")] "m"
  exact ⟨by decide, hthm.2.1 (by decide)⟩

/-- C10: the fips-value response keys its `values` by FIPS with no
duplicate keys, and the entry stored for a FIPS is the one built from the
LAST row of the filtered row set carrying that FIPS — earlier rows for the
same FIPS are overwritten. -/
theorem fips_values_last_row_wins (ds : Dataset) (lim : Option String) (table : List Row)
    (m : String) (fs : Option String) (d : List (String × String))
    (resp : FIPSMeasureResponse)
    (hp : parseFilters fs = .ok d)
    (h : get_dataset_fips ds lim table m fs = .ok resp) :
    (resp.values.map Prod.fst).Nodup
    ∧ ∀ fips, pyGet resp.values fips
        = ((fipsFilteredRows ds lim d table m).reverse.find? (fun r => r.FIPS == fips)).map
            (mkFIPSValue ds) := by
  obtain ⟨d2, hp2, hr⟩ := get_dataset_fips_ok_inv ds lim table m fs resp h
  have hd : d = d2 := by
    rw [hp] at hp2
    exact Except.ok.inj hp2
  rw [hr, ← hd]
  constructor
  · exact pyDictOf_keys_nodup _
  · intro fips
    show pyGet (pyDictOf ((fipsFilteredRows ds lim d table m).map
        (fun r => (r.FIPS, mkFIPSValue ds r)))) fips = _
    rw [pyGet_pyDictOf, ← List.map_reverse, List.find?_map, Option.map_map]
    rfl

/-- C10 witness: two rows with the same FIPS; the response holds one entry
for that FIPS, carrying the later row's value. -/
theorem fips_values_last_row_wins_witness :
    get_dataset_fips dsNoFactors none [rowDup1, rowDup2] "m" none = .ok respDup
    ∧ (respDup.values.map Prod.fst).Nodup
    ∧ pyGet respDup.values "08001"
        = ((fipsFilteredRows dsNoFactors none [] [rowDup1, rowDup2] "m").reverse.find?
            (fun r => r.FIPS == "08001")).map (mkFIPSValue dsNoFactors) := by
  have h : get_dataset_fips dsNoFactors none [rowDup1, rowDup2] "m" none = .ok respDup := by
    decide
  have hthm := fips_values_last_row_wins dsNoFactors none [rowDup1, rowDup2] "m" none []
    respDup rfl h
  exact ⟨h, hthm.1, hthm.2 "08001"⟩

end CoCancer
